import Mathlib

/-!
Verification development for the token-ownership proof program
(`src/program/src/main.rs`).  The definitions below are a shallow
embedding of the Rust source: pure Rust functions become Lean
functions, machine integers become `Nat` with explicit `% 2 ^ w`
where overflow matters, and every Rust `unwrap`/`panic!`-style
failure becomes an `Option` result (`none` = the computation aborts).
-/

set_option maxRecDepth 10000
set_option maxHeartbeats 4000000

/-! ## Byte and hex utilities

The Rust program works with `String` hex fields (via the `hex` crate)
and byte arrays.  Bytes are modelled as `Nat` values below 256, byte
arrays as `List Nat`.  All strings handled by the program are ASCII,
so `String.data.map Char.toNat` models `str::as_bytes`.
-/

/-- The sixteen lowercase hex digit characters, as produced by `hex::encode`. -/
def hexChars : List Char := "0123456789abcdef".data

/-- Lowercase hex digit for a nibble. -/
def hexDigit (n : Nat) : Char := hexChars.getD n '0'

/-- Value of one hex digit character; accepts both cases, as `hex::decode` does. -/
def hexVal (c : Char) : Option Nat :=
  let n := c.toNat
  if 48 ≤ n ∧ n ≤ 57 then some (n - 48)
  else if 97 ≤ n ∧ n ≤ 102 then some (n - 87)
  else if 65 ≤ n ∧ n ≤ 70 then some (n - 55)
  else none

/-- Model of `hex::decode` on a character list: fails on odd length or a non-hex char. -/
def hexDecodeL : List Char → Option (List Nat)
  | [] => some []
  | [_] => none
  | a :: b :: t =>
    match hexVal a, hexVal b, hexDecodeL t with
    | some x, some y, some r => some ((16 * x + y) :: r)
    | _, _, _ => none

/-- Model of `hex::encode` on a byte list (lowercase), as a character list. -/
def hexEncodeL (l : List Nat) : List Char :=
  l.foldr (fun b acc => hexDigit (b / 16) :: hexDigit (b % 16) :: acc) []

/-- Model of `hex::encode` producing a `String`. -/
def hexEncode (l : List Nat) : String := ⟨hexEncodeL l⟩

/-- ASCII lowercasing of one character code (models `str::to_lowercase`
on the ASCII strings the program handles). -/
def lowerChar (c : Char) : Char :=
  if 65 ≤ c.toNat ∧ c.toNat ≤ 90 then Char.ofNat (c.toNat + 32) else c

/-- ASCII lowercasing of a string. -/
def lowerStr (s : String) : String := ⟨s.data.map lowerChar⟩

/-- UTF-8 bytes of an ASCII string (`str::as_bytes`). -/
def strBytes (s : String) : List Nat := s.data.map Char.toNat

/-- Decimal digits accumulator: models `u64::to_string`.  The fuel 30
covers every number below `10 ^ 30`, in particular the whole `u64` range. -/
def decStrAux : Nat → Nat → List Char → List Char
  | 0, _, acc => acc
  | f + 1, n, acc =>
    let acc' := hexDigit (n % 10) :: acc
    if n / 10 = 0 then acc' else decStrAux f (n / 10) acc'

/-- Decimal rendering of a `u64` balance (`u64::to_string`). -/
def decStr (n : Nat) : String := ⟨decStrAux 30 n []⟩

/-- Big-endian interpretation of a byte list. -/
def bytesToNat (l : List Nat) : Nat := l.foldl (fun a b => a * 256 + b) 0

/-- Little-endian interpretation of a byte list (Keccak lane loads). -/
def bytesToNatLE : List Nat → Nat
  | [] => 0
  | b :: t => b + 256 * bytesToNatLE t

/-- Big-endian encoding of a number on `k` bytes. -/
def natToBytesBE : Nat → Nat → List Nat
  | 0, _ => []
  | k + 1, n => natToBytesBE k (n / 256) ++ [n % 256]

/-- Little-endian encoding of a number on `k` bytes. -/
def natToBytesLE : Nat → Nat → List Nat
  | 0, _ => []
  | k + 1, n => n % 256 :: natToBytesLE k (n / 256)

/-! ## Keccak-256

Executable model of the `sha3::Keccak256` hash used throughout the
program (legacy Keccak padding `0x01 … 0x80`, rate 136 bytes, 24
rounds).  The 5×5×64-bit state is packed into a single natural number:
lane `(x, y)` occupies bits `64 * (x + 5 * y) ..< 64 * (x + 5 * y) + 64`,
and within a lane the byte order is little-endian, so absorbing a block
is a plain xor with the little-endian value of its bytes. -/

/-- 64-bit left rotation. -/
def rotl64 (x n : Nat) : Nat :=
  ((x <<< (n % 64)) ||| (x >>> (64 - n % 64))) % 18446744073709551616

/-- Keccak round constants (decimal). -/
def keccakRC : List Nat :=
  [1, 32898, 9223372036854808714,
   9223372039002292224, 32907, 2147483649,
   9223372039002292353, 9223372036854808585, 138,
   136, 2147516425, 2147483658,
   2147516555, 9223372036854775947, 9223372036854808713,
   9223372036854808579, 9223372036854808578, 9223372036854775936,
   32778, 9223372039002259466, 9223372039002292353,
   9223372036854808704, 2147483649, 9223372039002292232]

/-- Keccak rho rotation offsets for lane `(x, y)`, stored at position
`5 * x + y`. -/
def rhoOff : List Nat :=
  [0, 36, 3, 41, 18,
   1, 44, 10, 45, 2,
   62, 6, 43, 15, 61,
   28, 55, 25, 21, 56,
   27, 20, 39, 8, 14]

/-- Lane `i = x + 5 * y` of a packed 1600-bit state. -/
def lane (s : Nat) (i : Nat) : Nat := (s >>> (64 * i)) &&& 18446744073709551615

/-- Rebuild a packed state from a per-lane function. -/
def packLanes (f : Nat → Nat) : Nat :=
  (List.range 25).foldl (fun acc i => acc ||| (f i <<< (64 * i))) 0

/-- Keccak theta step. -/
def keccakTheta (s : Nat) : Nat :=
  let col := fun x =>
    lane s x ^^^ lane s (x + 5) ^^^ lane s (x + 10) ^^^ lane s (x + 15) ^^^ lane s (x + 20)
  let d := fun x => col ((x + 4) % 5) ^^^ rotl64 (col ((x + 1) % 5)) 1
  packLanes (fun i => lane s i ^^^ d (i % 5))

/-- Keccak rho and pi steps combined: output lane `j = x' + 5 * y'` comes
from input lane `(3 * (j / 5) + j % 5) % 5 + 5 * (j % 5)`, rotated by its
rho offset. -/
def keccakRhoPi (s : Nat) : Nat :=
  packLanes (fun j =>
    let y := j % 5
    let x := (3 * (j / 5) + y) % 5
    rotl64 (lane s (x + 5 * y)) (rhoOff.getD (5 * x + y) 0))

/-- Keccak chi step. -/
def keccakChi (s : Nat) : Nat :=
  packLanes (fun j =>
    let x := j % 5
    let y := j - x
    let b1 := lane s ((x + 1) % 5 + y)
    let b2 := lane s ((x + 2) % 5 + y)
    lane s j ^^^ ((b1 ^^^ 18446744073709551615) &&& b2))

/-- One Keccak round (iota is the xor of the round constant into lane 0). -/
def keccakRound (rc : Nat) (s : Nat) : Nat :=
  keccakChi (keccakRhoPi (keccakTheta s)) ^^^ rc

/-- Round iteration for Keccak-f.  The (always-true) equality test on the
state forces it to a numeral before the next round is applied, so that
call-by-name evaluation inside the kernel proceeds round by round instead
of building one deeply nested term; it does not change the value. -/
def keccakFAux : List Nat → Nat → Nat
  | [], s => s
  | rc :: rest, s => if s = s then keccakFAux rest (keccakRound rc s) else s

/-- The Keccak-f[1600] permutation. -/
def keccakF (s : Nat) : Nat := keccakFAux keccakRC s

/-- Keccak legacy padding to a multiple of 136 bytes. -/
def keccakPad (msg : List Nat) : List Nat :=
  let r := 136
  let padlen := r - msg.length % r
  if padlen = 1 then msg ++ [0x81]
  else msg ++ 0x01 :: List.replicate (padlen - 2) 0 ++ [0x80]

/-- Keccak-256 of a byte list (the `sha3::Keccak256` digest): absorb each
136-byte block (xor into the low 17 lanes, then permute), then squeeze
the first 32 bytes of the state. -/
def keccak256 (msg : List Nat) : List Nat :=
  let padded := keccakPad msg
  let nblocks := padded.length / 136
  let final := (List.range nblocks).foldl
    (fun st i => keccakF (st ^^^ bytesToNatLE ((padded.drop (136 * i)).take 136))) 0
  natToBytesLE 32 final

/-! ## secp256k1 and ECDSA public-key recovery

Executable model of the `k256` operations used by
`recover_pubkey_with_digest`: `RecoveryId::try_from`,
`Signature::try_from` (64 big-endian bytes, both scalars nonzero and
canonical), and `VerifyingKey::recover_from_prehash` (x-reduced
recovery ids 2/3 add the group order to `r`; the candidate point is
decompressed with the parity chosen by the id; the recovered key is
`r⁻¹·(s·R − z·G)` and the signature is finally re-verified against it).
-/

/-- The secp256k1 base field prime. -/
def secpP : Nat := 115792089237316195423570985008687907853269984665640564039457584007908834671663

/-- The secp256k1 group order. -/
def secpN : Nat := 115792089237316195423570985008687907852837564279074904382605163141518161494337

/-- Modular subtraction on canonical representatives. -/
def subMod (a b m : Nat) : Nat := (a % m + (m - b % m)) % m

/-- Fuel-driven square-and-multiply modular exponentiation. -/
def powModAux : Nat → Nat → Nat → Nat → Nat
  | 0, _, _, _ => 1
  | fuel + 1, b, e, m =>
    if e = 0 then 1
    else
      let h := powModAux fuel (b * b % m) (e / 2) m
      if e % 2 = 1 then h * b % m else h

/-- Modular exponentiation (fuel 257 covers all 256-bit exponents). -/
def powMod (b e m : Nat) : Nat := powModAux 257 (b % m) e m

/-- Modular inverse by Fermat's little theorem (for prime modulus). -/
def invMod (a m : Nat) : Nat := powMod a (m - 2) m

/-- An affine secp256k1 point, or the point at infinity. -/
inductive Pt where
  | inf : Pt
  | aff (x y : Nat) : Pt
deriving DecidableEq, Repr

/-- Affine point addition on secp256k1 (curve `y² = x³ + 7`). -/
def padd : Pt → Pt → Pt
  | .inf, q => q
  | p, .inf => p
  | .aff x1 y1, .aff x2 y2 =>
    if x1 = x2 then
      if (y1 + y2) % secpP = 0 then .inf
      else
        let l := 3 * x1 * x1 % secpP * invMod (2 * y1 % secpP) secpP % secpP
        let x3 := subMod (l * l) (x1 + x2) secpP
        .aff x3 (subMod (l * subMod x1 x3 secpP) y1 secpP)
    else
      let l := subMod y2 y1 secpP * invMod (subMod x2 x1 secpP) secpP % secpP
      let x3 := subMod (l * l) (x1 + x2) secpP
      .aff x3 (subMod (l * subMod x1 x3 secpP) y1 secpP)

/-- Double-and-add scalar multiplication, most significant bit first. -/
def smulAux : Nat → Nat → Pt → Pt → Pt
  | 0, _, _, acc => acc
  | i + 1, k, p, acc =>
    let acc := padd acc acc
    smulAux i k p (if k.testBit i then padd acc p else acc)

/-- Scalar multiplication on secp256k1 (256-bit scalars). -/
def smul (k : Nat) (p : Pt) : Pt := smulAux 256 k p .inf

/-- The secp256k1 generator. -/
def secpG : Pt :=
  .aff 55066263022277343669578718895168534326250603453777594175500187360389116729240
       32670510020758816978083085130507043184471273380659243275938904335757337482424

/-- Square root in the base field (`p ≡ 3 mod 4`), when it exists. -/
def sqrtModP (a : Nat) : Option Nat :=
  let r := powMod a ((secpP + 1) / 4) secpP
  if r * r % secpP = a % secpP then some r else none

/-- Model of `AffinePoint::decompress`: lift an x-coordinate with a parity choice. -/
def decompressPt (x : Nat) (odd : Bool) : Option Pt :=
  if secpP ≤ x then none
  else
    match sqrtModP ((powMod x 3 secpP + 7) % secpP) with
    | none => none
    | some y =>
      let y' := if (decide (y % 2 = 1)) = odd then y else (secpP - y) % secpP
      some (.aff x y')

/-- Model of `VerifyingKey::recover_from_prehash` given reduced scalars `z`, `r`, `s`
(already validated: `1 ≤ r < n`, `1 ≤ s < n`) and a recovery id in `0..=3`. -/
def recoverPoint (z r s recid : Nat) : Option Pt :=
  let xOpt : Option Nat :=
    if 2 ≤ recid then (if r + secpN < secpP then some (r + secpN) else none) else some r
  match xOpt with
  | none => none
  | some x =>
    match decompressPt x (recid % 2 = 1) with
    | none => none
    | some bigR =>
      let rinv := invMod r secpN
      let u1 := (secpN - rinv * z % secpN) % secpN
      let u2 := rinv * s % secpN
      match padd (smul u1 secpG) (smul u2 bigR) with
      | .inf => none
      | .aff kx ky =>
        let sinv := invMod s secpN
        let v1 := z * sinv % secpN
        let v2 := r * sinv % secpN
        match padd (smul v1 secpG) (smul v2 (.aff kx ky)) with
        | .inf => none
        | .aff xv _ => if xv % secpN = r then some (.aff kx ky) else none

/-! ## The program (`src/program/src/main.rs`)

Direct translation of the guest program.  Rust `panic`s (`unwrap`,
out-of-bounds indexing, failed `assert!`) are modelled as `none`,
which aborts the whole run, exactly as a guest panic aborts the
proof computation.  The `u64` accumulator `total_balance` wraps
modulo `2 ^ 64` (`+=` in the release build), and the `u32` field
`index` is a natural number below `2 ^ 32`.
-/

/-- The `PublicInputs` struct: hex message digest and hex Merkle root. -/
structure PublicInputs where
  message_digest : String
  merkle_root : String

/-- The `InclusionBranches` struct: path bits (`u32`) and hex sibling hashes. -/
structure InclusionBranches where
  index : Nat
  proof : List String

/-- The `SignedMessage` struct: hex signature, `u64` balance, Merkle branches. -/
structure SignedMessage where
  signature : String
  balance : Nat
  inclusion_branches : InclusionBranches

/-- The `PrivateInputs` struct. -/
structure PrivateInputs where
  signed_messages : List SignedMessage

/-- Model of the `hex.starts_with("0x")` / `&hex[2..]` prefix stripping. -/
def strip0x : List Char → List Char
  | '0' :: 'x' :: t => t
  | l => l

/-- Translation of `hex_to_bytes32`: strip an optional `0x`, decode, insist on 32 bytes
(`hex::decode(..).unwrap()` and `assert!` become `none`). -/
def hex_to_bytes32 (s : String) : Option (List Nat) :=
  match hexDecodeL (strip0x s.data) with
  | none => none
  | some b => if b.length = 32 then some b else none

/-- Translation of `recover_pubkey_with_digest`: decode the signature hex after dropping
two characters, read byte 64 as the `{27,28,29,30}` recovery indicator
(`recovery_byte - 27` wraps as `u8`; `RecoveryId::try_from` accepts
`0..=3`), validate `r`/`s` as nonzero canonical scalars, parse the digest
with `hex_to_bytes32`, recover the key, and hex-encode its uncompressed
SEC1 form. -/
def recover_pubkey_with_digest (message_digest_hex signature : String) : Option String :=
  if signature.data.length < 2 then none
  else
    match hexDecodeL (signature.data.drop 2) with
    | none => none
    | some sig_bytes =>
      if sig_bytes.length < 65 then none
      else
        let recovery_byte := sig_bytes.getD 64 0
        let recid := (recovery_byte + 229) % 256
        if 3 < recid then none
        else
          let r := bytesToNat (sig_bytes.take 32)
          let s := bytesToNat ((sig_bytes.drop 32).take 32)
          if r = 0 ∨ secpN ≤ r ∨ s = 0 ∨ secpN ≤ s then none
          else
            match hex_to_bytes32 message_digest_hex with
            | none => none
            | some digest =>
              match recoverPoint (bytesToNat digest % secpN) r s recid with
              | none => none
              | some .inf => none
              | some (.aff x y) =>
                some (hexEncode (4 :: (natToBytesBE 32 x ++ natToBytesBE 32 y)))

/-- Translation of `pubkey_to_address`: keccak the key bytes (dropping a leading `0x04`),
keep the low-order 20 bytes, render as `0x`-prefixed lowercase hex. -/
def pubkey_to_address (pubkey_hex : String) : Option String :=
  match hexDecodeL pubkey_hex.data with
  | none => none
  | some pubkey_bytes =>
    let bytes_to_hash :=
      match pubkey_bytes with
      | 4 :: rest => rest
      | l => l
    let h := keccak256 bytes_to_hash
    some ("0x" ++ hexEncode (h.drop (h.length - 20)))

/-- Translation of `hash_leaf`: keccak of `lowercase(address) ++ ":" ++ decimal(balance)`. -/
def hash_leaf (address : String) (balance : Nat) : List Nat :=
  keccak256 (strBytes (lowerStr address ++ ":" ++ decStr balance))

/-- Loop body of `compute_inclusion_root`, carrying the enumeration
index `i`.  The test `bits & (1 << i) == 0` is on `u32` values; in the
release build a `u32` shift masks its shift amount to five bits, so
`1 << i` is `1 << (i % 32)` (a debug build would panic for `i ≥ 32`). -/
def computeRootAux (bits : Nat) : List Nat → Nat → List String → Option (List Nat)
  | root, _, [] => some root
  | root, i, hash_hex :: rest =>
    match hex_to_bytes32 hash_hex with
    | none => none
    | some hash =>
      let root' :=
        if bits &&& (1 <<< (i % 32)) = 0
        then keccak256 (root ++ hash)
        else keccak256 (hash ++ root)
      computeRootAux bits root' (i + 1) rest

/-- Translation of `compute_inclusion_root`: fold the sibling path onto the commitment. -/
def compute_inclusion_root (commitment : List Nat) (proof : InclusionBranches) :
    Option (List Nat) :=
  computeRootAux proof.index commitment 0 proof.proof

/-- The mutable loop state of `main`: the `seen_addresses` set (modelled
as the list of inserted elements) and the `u64` accumulator. -/
structure MState where
  seen : List String
  total : Nat
deriving DecidableEq

/-- One iteration of the claim loop in `main`. -/
def step (pub : PublicInputs) (root : List Nat) (st : MState) (m : SignedMessage) :
    Option MState :=
  match recover_pubkey_with_digest pub.message_digest m.signature with
  | none => none
  | some pubkey =>
    match pubkey_to_address pubkey with
    | none => none
    | some recovered_address =>
      let normalized_address := lowerStr recovered_address
      if normalized_address ∈ st.seen then some st
      else
        let leaf_hash := hash_leaf recovered_address m.balance
        match compute_inclusion_root leaf_hash m.inclusion_branches with
        | none => none
        | some computed_root =>
          if computed_root = root then
            some ⟨normalized_address :: st.seen, (st.total + m.balance) % 18446744073709551616⟩
          else some st

/-- The claim loop of `main`. -/
def runMessages (pub : PublicInputs) (root : List Nat) :
    List SignedMessage → MState → Option MState
  | [], st => some st
  | m :: rest, st =>
    match step pub root st m with
    | none => none
    | some st' => runMessages pub root rest st'

/-- Translation of `main`: parse the expected root, process every claim in order, and
commit the final total (`none` = the guest program panics and no value
is committed). -/
def mainRun (pub : PublicInputs) (priv : PrivateInputs) : Option Nat :=
  match hex_to_bytes32 pub.merkle_root with
  | none => none
  | some expected_merkle_root =>
    match runMessages pub expected_merkle_root priv.signed_messages ⟨[], 0⟩ with
    | none => none
    | some st => some st.total

/-! ## Instrumented run

`runMessagesC` is `runMessages` extended with a ghost list recording,
for each contributing claim, the inserted identity and the balance that
was added.  It is proved to project onto the real run. -/

/-- Loop state with the ghost contribution log (most recent first). -/
structure MStateC where
  seen : List String
  total : Nat
  contribs : List (String × Nat)
deriving DecidableEq

/-- The step function with the ghost contribution log. -/
def stepC (pub : PublicInputs) (root : List Nat) (st : MStateC) (m : SignedMessage) :
    Option MStateC :=
  match recover_pubkey_with_digest pub.message_digest m.signature with
  | none => none
  | some pubkey =>
    match pubkey_to_address pubkey with
    | none => none
    | some recovered_address =>
      let normalized_address := lowerStr recovered_address
      if normalized_address ∈ st.seen then some st
      else
        let leaf_hash := hash_leaf recovered_address m.balance
        match compute_inclusion_root leaf_hash m.inclusion_branches with
        | none => none
        | some computed_root =>
          if computed_root = root then
            some ⟨normalized_address :: st.seen,
                  (st.total + m.balance) % 18446744073709551616,
                  (normalized_address, m.balance) :: st.contribs⟩
          else some st

/-- The claim loop with the ghost contribution log. -/
def runMessagesC (pub : PublicInputs) (root : List Nat) :
    List SignedMessage → MStateC → Option MStateC
  | [], st => some st
  | m :: rest, st =>
    match stepC pub root st m with
    | none => none
    | some st' => runMessagesC pub root rest st'

/-! ## Specification-level Merkle fold (for claim C1)

`specFold` is written from the specification text: at level `i` inspect
bit `i` of `pathBits` (bit 0 least significant); bit clear hashes
`current ‖ sibling`, bit set hashes `sibling ‖ current`. -/

/-- Spec-level fold, carrying the level index. -/
def specFoldAux (bits : Nat) : List Nat → Nat → List (List Nat) → List Nat
  | cur, _, [] => cur
  | cur, i, sib :: rest =>
    specFoldAux bits
      (if bits.testBit i then keccak256 (sib ++ cur) else keccak256 (cur ++ sib))
      (i + 1) rest

/-- Spec-level computed root from a leaf commitment, path bits and siblings. -/
def specFold (leaf : List Nat) (bits : Nat) (sibs : List (List Nat)) : List Nat :=
  specFoldAux bits leaf 0 sibs

/-- Amended spec-level fold: level `i` inspects bit `i % 32` of the path
bits, matching the masked `u32` shift of the release build. -/
def specFoldMAux (bits : Nat) : List Nat → Nat → List (List Nat) → List Nat
  | cur, _, [] => cur
  | cur, i, sib :: rest =>
    specFoldMAux bits
      (if bits.testBit (i % 32) then keccak256 (sib ++ cur) else keccak256 (cur ++ sib))
      (i + 1) rest

/-- Amended spec-level computed root (bit `i % 32` at level `i`). -/
def specFoldM (leaf : List Nat) (bits : Nat) (sibs : List (List Nat)) : List Nat :=
  specFoldMAux bits leaf 0 sibs

/-- Decode a list of hex sibling strings to 32-byte values. -/
def decodeAll : List String → Option (List (List Nat))
  | [] => some []
  | h :: t =>
    match hex_to_bytes32 h, decodeAll t with
    | some b, some r => some (b :: r)
    | _, _ => none

/-! ## Derived identity of a claim

`identityOf` packages steps 1–2 of the claim loop: recover the public
key, derive the address, normalize to lowercase.  It is the value the
deduplication set is keyed on. -/

/-- The normalized derived identity of a claim, when recovery succeeds. -/
def identityOf (pub : PublicInputs) (m : SignedMessage) : Option String :=
  match recover_pubkey_with_digest pub.message_digest m.signature with
  | none => none
  | some pubkey =>
    match pubkey_to_address pubkey with
    | none => none
    | some addr => some (lowerStr addr)

/-- The initial instrumented state. -/
def cinit : MStateC := ⟨[], 0, []⟩

/-- Relation between two loop-state results that differ only in the
internal order of the seen-set representation (the freedom a hash set
has): both abort, or both succeed with permuted seen sets and equal
totals. -/
def MRel : Option MState → Option MState → Prop
  | none, none => True
  | some s₁, some s₂ => s₁.seen.Perm s₂.seen ∧ s₁.total = s₂.total
  | _, _ => False

/-- The invariant tying the seen set, the contribution log and the
accumulator together: the seen set is exactly the list of contributing
identities (most recent first), without duplicates, and the total is the
wrapped sum of the contributed balances. -/
def CInv (s : MStateC) : Prop :=
  s.seen = s.contribs.map Prod.fst ∧ s.seen.Nodup ∧
  s.total = (s.contribs.map Prod.snd).sum % 18446744073709551616

/-! ## Concrete inputs for witnesses and counterexamples

The signatures are valid recoverable ECDSA signatures over the all-zero
digest built from tiny scalars: `sigA = (r = 1, s = 1, v = 27)`,
`sigB = (r = 1, s = 1, v = 28)` (the same `r` with the other y-parity,
giving a different key), and `sigX = (r = 2, s = 2, v = 29)` (an
x-reduced recovery id).  The addresses, leaf hashes and roots below were
computed with the definitions above. -/

/-- All-zero 32-byte message digest (no `0x` prefix). -/
def digest0 : String :=
  "0000000000000000000000000000000000000000000000000000000000000000"

/-- Signature `r = 1, s = 1, v = 27`. -/
def sigA : String :=
  "0x000000000000000000000000000000000000000000000000000000000000000100000000000000000000000000000000000000000000000000000000000000011b"

/-- Signature `r = 1, s = 1, v = 28`. -/
def sigB : String :=
  "0x000000000000000000000000000000000000000000000000000000000000000100000000000000000000000000000000000000000000000000000000000000011c"

/-- Signature `r = 2, s = 2, v = 29` (recovery id 2, x-reduced). -/
def sigX : String :=
  "0x000000000000000000000000000000000000000000000000000000000000000200000000000000000000000000000000000000000000000000000000000000021d"

/-- The uncompressed public key recovered from `sigA` over `digest0`. -/
def pkA : String :=
  "0400000000000000000000000000000000000000000000000000000000000000014218f20ae6c646b363db68605822fb14264ca8d2587fdd6fbc750d587e76a7ee"

/-- Byte form of `pkA` without the leading `0x04`. -/
def pkABytes : List Nat :=
  natToBytesBE 32 1 ++
  natToBytesBE 32 29896722852569046015560700294576055776214335159245303116488692907525646231534

/-- The uncompressed public key recovered from `sigB` over `digest0`. -/
def pkB : String :=
  "040000000000000000000000000000000000000000000000000000000000000001bde70df51939b94c9c24979fa7dd04ebd9b3572da7802290438af2a681895441"

/-- Address derived from `pkA`. -/
def addrA : String := "0x3344c6f6eeca588be132142db0a32c71abfaae7b"

/-- Address derived from `pkB`. -/
def addrB : String := "0x3fd33f48acc25c4234b4c1c0a5eb989619c07fee"

/-- Hex of `hash_leaf addrA 7`, used as a single-leaf Merkle root. -/
def root7hex : String :=
  "40eead377c661e895b0def0274d85cf6d8ade4f8079bdced2af6a471f36a9180"

/-- Byte form of `root7hex`. -/
def root7B : List Nat :=
  [64, 238, 173, 55, 124, 102, 30, 137, 91, 13, 239, 2, 116, 216, 92, 246,
   216, 173, 228, 248, 7, 155, 220, 237, 42, 246, 164, 113, 243, 106, 145, 128]

/-- The balance `2 ^ 63` used in the overflow scenario. -/
def bal63 : Nat := 9223372036854775808

/-- Hex of `hash_leaf addrA bal63`. -/
def leafA63hex : String :=
  "ab527acc5b4a3b1c39f40ab64422f5279d85329553edbda04b592f7491c1c015"

/-- Hex of `hash_leaf addrB bal63`. -/
def leafB63hex : String :=
  "a6cfc8909ed976ed0f0c8b15e2735cf4b9273b8d4c414c96d2d5d91155213eb0"

/-- Hex of the two-leaf tree root `keccak256 (leafA63 ++ leafB63)`. -/
def rootOvfHex : String :=
  "50bc106d0709776ea04501c413ab5b8a995bdfcbd5b1bb08a4dd1813bf301248"

/-- Byte form of `rootOvfHex`. -/
def rootOvfB : List Nat :=
  [80, 188, 16, 109, 7, 9, 119, 110, 160, 69, 1, 196, 19, 171, 91, 138,
   153, 91, 223, 203, 213, 177, 187, 8, 164, 221, 24, 19, 191, 48, 18, 72]

/-- Context for the duplicate-identity scenario: root is `hash_leaf addrA 7`. -/
def pubDup : PublicInputs := ⟨digest0, root7hex⟩

/-- Claim: `sigA`, balance 5, empty sibling list (fails inclusion under `pubDup`). -/
def msgDup5 : SignedMessage := ⟨sigA, 5, ⟨0, []⟩⟩

/-- Claim: `sigA`, balance 7, empty sibling list (passes inclusion under `pubDup`). -/
def msgDup7 : SignedMessage := ⟨sigA, 7, ⟨0, []⟩⟩

/-- Context for the overflow scenario: the two-leaf tree root. -/
def pubOvf : PublicInputs := ⟨digest0, rootOvfHex⟩

/-- Claim: `sigA`, balance `2 ^ 63`, left leaf of the two-leaf tree. -/
def msgOvfA : SignedMessage := ⟨sigA, bal63, ⟨0, [leafB63hex]⟩⟩

/-- Claim: `sigB`, balance `2 ^ 63`, right leaf of the two-leaf tree. -/
def msgOvfB : SignedMessage := ⟨sigB, bal63, ⟨1, [leafA63hex]⟩⟩

/-- A claim whose signature hex is structurally malformed. -/
def msgBad : SignedMessage := ⟨"0xzz", 3, ⟨0, []⟩⟩

/-- The all-zero 32-byte value, used as leaf commitment and sibling in
the deep-path scenario. -/
def cexLeaf : List Nat := List.replicate 32 0

/-- The inclusion branches of the deep-path scenario: path bits 1 and
33 all-zero siblings, so level 32 is reached. -/
def cexBr : InclusionBranches := ⟨1, List.replicate 33 digest0⟩

/-- Value of the fold after the first 32 levels of the deep path. -/
def cexM : List Nat :=
  [181, 130, 18, 19, 50, 143, 251, 41, 129, 136, 219, 158, 39, 18, 181, 78,
   170, 121, 208, 19, 34, 163, 126, 143, 67, 81, 68, 119, 247, 105, 205, 98]

/-- The program's final value on the deep path: at level 32 the masked
shift re-inspects bit 0 (set), hashing `sibling ‖ current`. -/
def cexX : List Nat :=
  [120, 164, 112, 168, 207, 124, 41, 6, 41, 90, 140, 186, 79, 192, 98, 181,
   245, 29, 92, 236, 110, 52, 150, 0, 196, 41, 116, 221, 56, 44, 201, 9]

/-- The specification's final value on the deep path: bit 32 of the path
bits is clear, hashing `current ‖ sibling`. -/
def cexY : List Nat :=
  [94, 103, 206, 192, 151, 138, 133, 66, 225, 154, 142, 174, 61, 126, 13, 66,
   24, 154, 69, 232, 122, 37, 237, 87, 29, 130, 140, 13, 107, 68, 58, 251]

/-! ## Basic lemmas -/

/-- An `0x`-prefixed character list never hex-decodes (`x` is not a hex digit). -/
lemma hexDecodeL_0x (t : List Char) : hexDecodeL ('0' :: 'x' :: t) = none := rfl

/-- A decoded hex digit is below 16. -/
lemma hexVal_lt {c : Char} {v : Nat} (h : hexVal c = some v) : v < 16 := by
  simp only [hexVal] at h
  split at h
  · cases h; omega
  · split at h
    · cases h; omega
    · split at h
      · cases h; omega
      · cases h

/-- C10 helper: all bytes from `hexDecodeL` are below 256. -/
lemma hexDecodeL_lt : ∀ (l : List Char) (bs : List Nat),
    hexDecodeL l = some bs → ∀ b ∈ bs, b < 256
  | [], bs, h => by cases h; intro b hb; cases hb
  | [_], _, h => by cases h
  | a :: c :: t, bs, h => by
    unfold hexDecodeL at h
    cases ha : hexVal a with
    | none => rw [ha] at h; cases h
    | some x =>
      cases hc : hexVal c with
      | none => rw [ha, hc] at h; cases h
      | some y =>
        cases ht : hexDecodeL t with
        | none => rw [ha, hc, ht] at h; cases h
        | some r =>
          rw [ha, hc, ht] at h
          cases h
          intro b hb
          rcases List.mem_cons.mp hb with hb | hb
          · have hx := hexVal_lt ha
            have hy := hexVal_lt hc
            omega
          · exact hexDecodeL_lt t r ht b hb

/-! ## Claim C10: `0x`-prefix insensitivity of `hex_to_bytes32` -/

/-- C10: for every hex string that decodes to 32 bytes, `hex_to_bytes32`
returns the same byte array whether or not the string carries a `0x`
prefix, namely exactly those 32 bytes. -/
theorem c10_hex_both_forms (h : String) (b : List Nat)
    (hdec : hexDecodeL h.data = some b) (hlen : b.length = 32) :
    hex_to_bytes32 ("0x" ++ h) = hex_to_bytes32 h ∧ hex_to_bytes32 h = some b := by
  have hplain : hex_to_bytes32 h = some b := by
    unfold hex_to_bytes32
    have hstrip : strip0x h.data = h.data := by
      unfold strip0x
      split
      · next t heq =>
        rw [heq, hexDecodeL_0x] at hdec
        cases hdec
      · rfl
    rw [hstrip, hdec]
    simp [hlen]
  refine ⟨?_, hplain⟩
  have hdata : ("0x" ++ h).data = '0' :: 'x' :: h.data := rfl
  unfold hex_to_bytes32
  rw [hdata]
  have : strip0x ('0' :: 'x' :: h.data) = h.data := rfl
  rw [this]
  have hstrip : strip0x h.data = h.data := by
    unfold strip0x
    split
    · next t heq =>
      rw [heq, hexDecodeL_0x] at hdec
      cases hdec
    · rfl
  rw [hstrip]

/-- C10 witness: the all-zero digest string with and without `0x`. -/
theorem c10_hex_both_forms_witness :
    hexDecodeL digest0.data = some (List.replicate 32 0) ∧
    (List.replicate 32 (0 : Nat)).length = 32 ∧
    (hex_to_bytes32 ("0x" ++ digest0) = hex_to_bytes32 digest0 ∧
      hex_to_bytes32 digest0 = some (List.replicate 32 0)) :=
  ⟨by decide, by decide, c10_hex_both_forms digest0 (List.replicate 32 0) (by decide) (by decide)⟩

/-! ## Claim C4: behaviour on a structurally malformed signature -/

/-- C4 (amended): a claim whose signature fails recovery (malformed hex,
wrong length, bad recovery indicator, or failed point recovery) aborts the
entire run: the remaining claims are not processed and no aggregate is
produced.  (The claim as stated — skip the claim, report a per-claim
failure, and continue — is refuted by `c4_counterexample`.) -/
theorem c4_malformed_aborts (pub : PublicInputs) (root : List Nat) (st : MState)
    (m : SignedMessage) (rest : List SignedMessage)
    (h : recover_pubkey_with_digest pub.message_digest m.signature = none) :
    runMessages pub root (m :: rest) st = none := by
  unfold runMessages step
  rw [h]

/-- C4 counterexample: a malformed first claim makes the whole run abort
(`mainRun = none`), instead of being reported and skipped while the valid
second claim is still processed. -/
theorem c4_counterexample : mainRun pubDup ⟨[msgBad, msgDup7]⟩ = none := by decide

/-- C4 witness: the amended theorem applied to the malformed claim. -/
theorem c4_malformed_aborts_witness :
    recover_pubkey_with_digest pubDup.message_digest msgBad.signature = none ∧
    runMessages pubDup root7B [msgBad, msgDup7] ⟨[], 0⟩ = none :=
  ⟨by decide, c4_malformed_aborts pubDup root7B ⟨[], 0⟩ msgBad [msgDup7] (by decide)⟩

/-! ## Claim C1: the Merkle fold and its specification -/

/-- The `u32` test `bits & (1 << i) == 0` is exactly "bit `i % 32` of
`bits` is clear": the release-build shift masks its amount to `i % 32`,
and the resulting power of two isolates that bit. -/
lemma mask_testBit (bits i : Nat) :
    (bits &&& (1 <<< (i % 32)) = 0) ↔ bits.testBit (i % 32) = false := by
  have h2 : (1 <<< (i % 32)) = 2 ^ (i % 32) := by
    rw [Nat.shiftLeft_eq, one_mul]
  rw [h2, Nat.and_two_pow]
  cases htb : bits.testBit (i % 32) <;> simp

/-- The decoded sibling list has the length of the hex list. -/
lemma decodeAll_length : ∀ (l : List String) (sibs : List (List Nat)),
    decodeAll l = some sibs → sibs.length = l.length
  | [], sibs, h => by cases h; rfl
  | hh :: t, sibs, h => by
    unfold decodeAll at h
    cases hx : hex_to_bytes32 hh with
    | none => rw [hx] at h; cases h
    | some b =>
      cases ht : decodeAll t with
      | none => rw [hx, ht] at h; cases h
      | some rs =>
        rw [hx, ht] at h
        cases h
        simp only [List.length_cons, decodeAll_length t rs ht]

/-- The source loop of `compute_inclusion_root` computes the amended
spec-level fold — bit `i % 32` at level `i` — whenever every sibling
hex string decodes to 32 bytes. -/
lemma computeRootAux_spec (bits : Nat) :
    ∀ (l : List String) (sibs : List (List Nat)) (c : List Nat) (i : Nat),
      decodeAll l = some sibs →
      computeRootAux bits c i l = some (specFoldMAux bits c i sibs) := by
  intro l
  induction l with
  | nil =>
    intro sibs c i hd
    unfold decodeAll at hd
    cases hd
    rfl
  | cons hh t ih =>
    intro sibs c i hd
    unfold decodeAll at hd
    cases hx : hex_to_bytes32 hh with
    | none => rw [hx] at hd; cases hd
    | some hb32 =>
      cases ht : decodeAll t with
      | none => rw [hx, ht] at hd; cases hd
      | some rs =>
        rw [hx, ht] at hd
        cases hd
        unfold computeRootAux specFoldMAux
        rw [hx]
        dsimp only
        by_cases htb : bits.testBit (i % 32) = true
        · have hmask : ¬(bits &&& (1 <<< (i % 32)) = 0) := by
            rw [mask_testBit bits i, htb]
            simp
          rw [if_neg hmask, if_pos htb]
          exact ih rs _ (i + 1) ht
        · have hfalse : bits.testBit (i % 32) = false := by
            rwa [Bool.not_eq_true] at htb
          have hmask : bits &&& (1 <<< (i % 32)) = 0 :=
            (mask_testBit bits i).mpr hfalse
          rw [if_pos hmask, if_neg htb]
          exact ih rs _ (i + 1) ht

/-- On levels below 32 the amended fold and the literal spec fold agree. -/
lemma specFoldMAux_eq (bits : Nat) :
    ∀ (sibs : List (List Nat)) (c : List Nat) (i : Nat), i + sibs.length ≤ 32 →
      specFoldMAux bits c i sibs = specFoldAux bits c i sibs := by
  intro sibs
  induction sibs with
  | nil => intro c i _; rfl
  | cons sib rest ih =>
    intro c i hlen
    unfold specFoldMAux specFoldAux
    have hi : i % 32 = i := Nat.mod_eq_of_lt (by
      simp only [List.length_cons] at hlen
      omega)
    rw [hi]
    exact ih _ (i + 1) (by
      simp only [List.length_cons] at hlen
      omega)

/-- Unfolding equation of the source fold on a nonempty sibling list. -/
lemma computeRootAux_cons (bits : Nat) (c : List Nat) (i : Nat) (hh : String)
    (rest : List String) :
    computeRootAux bits c i (hh :: rest) =
      match hex_to_bytes32 hh with
      | none => none
      | some hash =>
        computeRootAux bits
          (if bits &&& (1 <<< (i % 32)) = 0
           then keccak256 (c ++ hash)
           else keccak256 (hash ++ c)) (i + 1) rest := rfl

/-- Splitting the source fold across an append of sibling lists. -/
lemma computeRootAux_append (bits : Nat) :
    ∀ (l1 l2 : List String) (c : List Nat) (i : Nat),
      computeRootAux bits c i (l1 ++ l2) =
        match computeRootAux bits c i l1 with
        | none => none
        | some r => computeRootAux bits r (i + l1.length) l2 := by
  intro l1
  induction l1 with
  | nil => intro l2 c i; rfl
  | cons hh t ih =>
    intro l2 c i
    show computeRootAux bits c i (hh :: (t ++ l2)) = _
    rw [computeRootAux_cons, computeRootAux_cons]
    cases hx : hex_to_bytes32 hh with
    | none => rfl
    | some hb32 =>
      dsimp only
      rw [ih l2 _ (i + 1)]
      simp only [List.length_cons]
      have harith : i + 1 + t.length = i + (t.length + 1) := by omega
      rw [harith]

/-- Unfolding equation of the spec fold on a nonempty sibling list. -/
lemma specFoldAux_cons (bits : Nat) (c : List Nat) (i : Nat) (sib : List Nat)
    (rest : List (List Nat)) :
    specFoldAux bits c i (sib :: rest) =
      specFoldAux bits
        (if bits.testBit i then keccak256 (sib ++ c) else keccak256 (c ++ sib))
        (i + 1) rest := rfl

/-- Splitting the literal spec fold across an append of sibling lists. -/
lemma specFoldAux_append (bits : Nat) :
    ∀ (l1 l2 : List (List Nat)) (c : List Nat) (i : Nat),
      specFoldAux bits c i (l1 ++ l2) =
        specFoldAux bits (specFoldAux bits c i l1) (i + l1.length) l2 := by
  intro l1
  induction l1 with
  | nil => intro l2 c i; rfl
  | cons sib t ih =>
    intro l2 c i
    show specFoldAux bits c i (sib :: (t ++ l2)) = _
    rw [specFoldAux_cons, specFoldAux_cons]
    rw [ih l2 _ (i + 1)]
    simp only [List.length_cons]
    have harith : i + 1 + t.length = i + (t.length + 1) := by omega
    rw [harith]

/-- C1 (amended): the Merkle verifier folds from the leaf upward, but
at level `i` it inspects bit `i % 32` of the `u32` path-bits field — the
release-build `u32` shift `1 << i` masks its shift amount.  For sibling
lists of length at most 32, the only depths a 32-bit path can address,
this is exactly bit `i` as the specification states.  The claim passes
exactly when the folded value equals the context root, and with an empty
sibling list it passes exactly when the leaf equals the root.  (The
unamended claim — bit `i` at every level, for every sibling list — is
refuted by `c1_counterexample` on a 33-sibling path.) -/
theorem c1_merkle_fold (c : List Nat) (br : InclusionBranches) (sibs : List (List Nat))
    (root : List Nat) (hdec : decodeAll br.proof = some sibs) :
    compute_inclusion_root c br = some (specFoldM c br.index sibs) ∧
    (br.proof.length ≤ 32 →
      compute_inclusion_root c br = some (specFold c br.index sibs)) ∧
    (compute_inclusion_root c br = some root ↔ specFoldM c br.index sibs = root) ∧
    (br.proof = [] → (compute_inclusion_root c br = some root ↔ c = root)) := by
  have h1 : compute_inclusion_root c br = some (specFoldM c br.index sibs) :=
    computeRootAux_spec br.index br.proof sibs c 0 hdec
  refine ⟨h1, ?_, ?_, ?_⟩
  · intro hlen
    rw [h1]
    unfold specFoldM specFold
    rw [specFoldMAux_eq br.index sibs c 0 (by
      rw [decodeAll_length br.proof sibs hdec]
      omega)]
  · rw [h1]
    exact ⟨fun h => by injection h, fun h => by rw [h]⟩
  · intro hnil
    have hsibs : sibs = [] := by
      rw [hnil] at hdec
      unfold decodeAll at hdec
      cases hdec
      rfl
    rw [h1, hsibs]
    unfold specFoldM specFoldMAux
    exact ⟨fun h => by injection h, fun h => by rw [h]⟩

/-- C1 counterexample: with path bits 1 and 33 siblings, at level 32 the
program re-inspects bit `32 % 32 = 0` of the path bits (set, so it
hashes `sibling ‖ current`) while the claim's fold inspects bit 32
(clear, so it hashes `current ‖ sibling`); the two computed roots
differ, refuting "at each level `i` it inspects bit `i` of pathBits" for
sibling lists longer than 32. -/
theorem c1_counterexample :
    decodeAll cexBr.proof = some (List.replicate 33 cexLeaf) ∧
    compute_inclusion_root cexLeaf cexBr = some cexX ∧
    specFold cexLeaf cexBr.index (List.replicate 33 cexLeaf) = cexY ∧
    cexX ≠ cexY ∧
    (1 : Nat).testBit 32 = false ∧ 1 &&& (1 <<< (32 % 32)) ≠ 0 := by
  have hM : computeRootAux 1 cexLeaf 0 (List.replicate 32 digest0) = some cexM := by decide
  have hdec32 : decodeAll (List.replicate 32 digest0) = some (List.replicate 32 cexLeaf) := by
    decide
  have hsplitS : List.replicate 33 digest0 = List.replicate 32 digest0 ++ [digest0] :=
    List.replicate_succ' 32 digest0
  have hsplitB : List.replicate 33 cexLeaf = List.replicate 32 cexLeaf ++ [cexLeaf] :=
    List.replicate_succ' 32 cexLeaf
  have hMspec : specFoldAux 1 cexLeaf 0 (List.replicate 32 cexLeaf) = cexM := by
    have h1 := computeRootAux_spec 1 (List.replicate 32 digest0)
      (List.replicate 32 cexLeaf) cexLeaf 0 hdec32
    have h3 : specFoldMAux 1 cexLeaf 0 (List.replicate 32 cexLeaf) = cexM :=
      Option.some.inj (h1.symm.trans hM)
    rw [← specFoldMAux_eq 1 (List.replicate 32 cexLeaf) cexLeaf 0 (by decide)]
    exact h3
  have hcomp : compute_inclusion_root cexLeaf cexBr = some cexX := by
    show computeRootAux 1 cexLeaf 0 (List.replicate 33 digest0) = some cexX
    rw [hsplitS, computeRootAux_append, hM]
    show computeRootAux 1 cexM (0 + (List.replicate 32 digest0).length) [digest0] = some cexX
    simp only [List.length_replicate]
    decide
  have hspec : specFold cexLeaf cexBr.index (List.replicate 33 cexLeaf) = cexY := by
    show specFoldAux 1 cexLeaf 0 (List.replicate 33 cexLeaf) = cexY
    rw [hsplitB, specFoldAux_append, hMspec]
    simp only [List.length_replicate]
    decide
  exact ⟨by decide, hcomp, hspec, by decide, by decide, by decide⟩

/-- C1 witness: a one-level path with bit 0 set. -/
theorem c1_merkle_fold_witness :
    decodeAll (InclusionBranches.mk 1 [root7hex]).proof = some [root7B] ∧
    (compute_inclusion_root root7B ⟨1, [root7hex]⟩ = some (specFoldM root7B 1 [root7B]) ∧
      ((InclusionBranches.mk 1 [root7hex]).proof.length ≤ 32 →
        compute_inclusion_root root7B ⟨1, [root7hex]⟩ = some (specFold root7B 1 [root7B])) ∧
      (compute_inclusion_root root7B ⟨1, [root7hex]⟩ = some root7B ↔
        specFoldM root7B 1 [root7B] = root7B) ∧
      ((InclusionBranches.mk 1 [root7hex]).proof = [] →
        (compute_inclusion_root root7B ⟨1, [root7hex]⟩ = some root7B ↔ root7B = root7B))) :=
  ⟨by decide, c1_merkle_fold root7B ⟨1, [root7hex]⟩ [root7B] root7B (by decide)⟩

/-! ## Claim C6: recovery indicator handling -/

/-- C6 (amended): a successful recovery forces the final signature byte
into `{27, 28, 29, 30}` — `v - 27` (wrapping `u8` subtraction) must be a
valid recovery id `0..=3`, where 27/28 select the y-parity directly and
29/30 are the x-reduced ids.  The original claim's set `{27, 28}` is
refuted by `c6_counterexample`, where a signature with final byte 29
recovers successfully. -/
theorem c6_recovery_indicator (d s pk : String) (bs : List Nat)
    (hrec : recover_pubkey_with_digest d s = some pk)
    (hdec : hexDecodeL (s.data.drop 2) = some bs) :
    27 ≤ bs.getD 64 0 ∧ bs.getD 64 0 ≤ 30 := by
  unfold recover_pubkey_with_digest at hrec
  split at hrec
  · cases hrec
  · rw [hdec] at hrec
    dsimp only at hrec
    split at hrec
    · cases hrec
    · split at hrec
      · cases hrec
      · next hlen hrecid =>
        have h64 : 64 < bs.length := by omega
        have hb : bs.getD 64 0 < 256 := by
          rw [List.getD_eq_getElem _ _ h64]
          exact hexDecodeL_lt _ _ hdec _ (List.getElem_mem h64)
        omega

/-- C6 counterexample: the signature `sigX` has final byte 29 — outside
`{27, 28}` — yet recovery succeeds, so claims with indicator 29 are not
rejected. -/
theorem c6_counterexample :
    (recover_pubkey_with_digest digest0 sigX).isSome = true ∧
    (hexDecodeL (sigX.data.drop 2)).map (fun bs => bs.getD 64 0) = some 29 ∧
    ¬(29 = 27 ∨ 29 = 28) :=
  ⟨by decide, by decide, by decide⟩

/-- C6 witness: the amended theorem applied to `sigA` (final byte 27). -/
theorem c6_recovery_indicator_witness :
    recover_pubkey_with_digest digest0 sigA = some pkA ∧
    hexDecodeL (sigA.data.drop 2) = some (natToBytesBE 32 1 ++ natToBytesBE 32 1 ++ [27]) ∧
    (27 ≤ (natToBytesBE 32 1 ++ natToBytesBE 32 1 ++ [27]).getD 64 0 ∧
      (natToBytesBE 32 1 ++ natToBytesBE 32 1 ++ [27]).getD 64 0 ≤ 30) :=
  ⟨by decide, by decide,
    c6_recovery_indicator digest0 sigA pkA (natToBytesBE 32 1 ++ natToBytesBE 32 1 ++ [27])
      (by decide) (by decide)⟩

/-! ## Step lemmas for the claim loop -/

/-- Decompose a successful identity derivation into its pipeline stages. -/
lemma identityOf_decomp (pub : PublicInputs) (m : SignedMessage) (a : String)
    (h : identityOf pub m = some a) :
    ∃ pk addr, recover_pubkey_with_digest pub.message_digest m.signature = some pk ∧
      pubkey_to_address pk = some addr ∧ lowerStr addr = a := by
  unfold identityOf at h
  cases hr : recover_pubkey_with_digest pub.message_digest m.signature with
  | none => rw [hr] at h; cases h
  | some pk =>
    rw [hr] at h
    dsimp only at h
    cases ha : pubkey_to_address pk with
    | none => rw [ha] at h; cases h
    | some addr =>
      rw [ha] at h
      cases h
      exact ⟨pk, addr, rfl, ha, rfl⟩

/-- A claim whose identity is already in the seen set is skipped: the
state is returned unchanged, with no Merkle verification and no addition. -/
lemma step_skip (pub : PublicInputs) (root : List Nat) (st : MState) (m : SignedMessage)
    (pk addr : String)
    (h1 : recover_pubkey_with_digest pub.message_digest m.signature = some pk)
    (h2 : pubkey_to_address pk = some addr)
    (h3 : lowerStr addr ∈ st.seen) :
    step pub root st m = some st := by
  simp [step, h1, h2, h3]

/-- A fresh claim whose inclusion check passes contributes exactly its
balance and inserts its identity. -/
lemma step_contrib (pub : PublicInputs) (root : List Nat) (st : MState) (m : SignedMessage)
    (pk addr : String)
    (h1 : recover_pubkey_with_digest pub.message_digest m.signature = some pk)
    (h2 : pubkey_to_address pk = some addr)
    (h3 : lowerStr addr ∉ st.seen)
    (h4 : compute_inclusion_root (hash_leaf addr m.balance) m.inclusion_branches = some root) :
    step pub root st m =
      some ⟨lowerStr addr :: st.seen, (st.total + m.balance) % 18446744073709551616⟩ := by
  simp [step, h1, h2, h3, h4]

/-- A fresh claim whose computed root differs from the expected root
leaves the state unchanged. -/
lemma step_frame (pub : PublicInputs) (root : List Nat) (st : MState) (m : SignedMessage)
    (pk addr : String) (c : List Nat)
    (h1 : recover_pubkey_with_digest pub.message_digest m.signature = some pk)
    (h2 : pubkey_to_address pk = some addr)
    (h3 : lowerStr addr ∉ st.seen)
    (h4 : compute_inclusion_root (hash_leaf addr m.balance) m.inclusion_branches = some c)
    (h5 : c ≠ root) :
    step pub root st m = some st := by
  simp [step, h1, h2, h3, h4, h5]

/-- The seen set only grows across one loop iteration. -/
lemma step_mono (pub : PublicInputs) (root : List Nat) (st st' : MState) (m : SignedMessage)
    (h : step pub root st m = some st') : st.seen ⊆ st'.seen := by
  unfold step at h
  cases hr : recover_pubkey_with_digest pub.message_digest m.signature with
  | none => rw [hr] at h; cases h
  | some pk =>
    rw [hr] at h
    dsimp only at h
    cases ha : pubkey_to_address pk with
    | none => rw [ha] at h; cases h
    | some addr =>
      rw [ha] at h
      dsimp only at h
      by_cases hmem : lowerStr addr ∈ st.seen
      · rw [if_pos hmem] at h
        cases h
        exact List.Subset.refl _
      · rw [if_neg hmem] at h
        cases hc : compute_inclusion_root (hash_leaf addr m.balance) m.inclusion_branches with
        | none => rw [hc] at h; cases h
        | some computed =>
          rw [hc] at h
          dsimp only at h
          by_cases heq : computed = root
          · rw [if_pos heq] at h
            cases h
            exact List.subset_cons_self _ _
          · rw [if_neg heq] at h
            cases h
            exact List.Subset.refl _

/-- Unfolding equation for a nonempty claim list. -/
lemma runMessages_cons (pub : PublicInputs) (root : List Nat) (m : SignedMessage)
    (rest : List SignedMessage) (st : MState) :
    runMessages pub root (m :: rest) st =
      match step pub root st m with
      | none => none
      | some st' => runMessages pub root rest st' := rfl

/-- Once an identity is in the seen set, deleting all later claims that
recover to it does not change the run: each of them is skipped entirely. -/
lemma run_skip_filter (pub : PublicInputs) (root : List Nat) (a : String) :
    ∀ (msgs : List SignedMessage) (st : MState), a ∈ st.seen →
      runMessages pub root msgs st =
        runMessages pub root (msgs.filter fun m' => !(identityOf pub m' == some a)) st := by
  intro msgs
  induction msgs with
  | nil => intro st _; rfl
  | cons m rest ih =>
    intro st hmem
    by_cases hid : identityOf pub m = some a
    · obtain ⟨pk, addr, h1, h2, h3⟩ := identityOf_decomp pub m a hid
      have hstep : step pub root st m = some st :=
        step_skip pub root st m pk addr h1 h2 (h3 ▸ hmem)
      have hL : runMessages pub root (m :: rest) st = runMessages pub root rest st := by
        rw [runMessages_cons, hstep]
      rw [hL, List.filter_cons_of_neg (by simp [hid])]
      exact ih st hmem
    · rw [List.filter_cons_of_pos (by simp [hid])]
      rw [runMessages_cons, runMessages_cons]
      cases hs : step pub root st m with
      | none => rfl
      | some st₁ => exact ih st₁ (step_mono pub root st st₁ m hs hmem)

/-! ## Claim C2: deduplication and first contributor -/

/-- C2 (amended): given a claim whose identity is fresh and whose
inclusion check passes, that claim contributes exactly its own balance
and inserts its identity into the seen set, and every later claim in the
run that recovers to the same identity is skipped entirely (no
re-verification of its proof, no addition): the rest of the run is the
run with those duplicates deleted.  (The unamended claim — the first of
two same-identity claims always wins — is refuted by
`c2_counterexample`, where the first duplicate fails its Merkle check
and the second one contributes instead.) -/
theorem c2_first_contributor (pub : PublicInputs) (root : List Nat) (st : MState)
    (m : SignedMessage) (rest : List SignedMessage) (pk addr : String)
    (h1 : recover_pubkey_with_digest pub.message_digest m.signature = some pk)
    (h2 : pubkey_to_address pk = some addr)
    (h3 : lowerStr addr ∉ st.seen)
    (h4 : compute_inclusion_root (hash_leaf addr m.balance) m.inclusion_branches = some root) :
    runMessages pub root (m :: rest) st =
      runMessages pub root (rest.filter fun m' => !(identityOf pub m' == some (lowerStr addr)))
        ⟨lowerStr addr :: st.seen, (st.total + m.balance) % 18446744073709551616⟩ := by
  have hstep := step_contrib pub root st m pk addr h1 h2 h3 h4
  rw [runMessages_cons, hstep]
  exact run_skip_filter pub root (lowerStr addr) rest _ (List.mem_cons_self _ _)

/-- C2 witness: the verifying balance-7 claim followed by a duplicate. -/
theorem c2_first_contributor_witness :
    recover_pubkey_with_digest pubDup.message_digest msgDup7.signature = some pkA ∧
    pubkey_to_address pkA = some addrA ∧
    lowerStr addrA ∉ (MState.mk [] 0).seen ∧
    compute_inclusion_root (hash_leaf addrA msgDup7.balance) msgDup7.inclusion_branches =
      some root7B ∧
    runMessages pubDup root7B (msgDup7 :: [msgDup5]) ⟨[], 0⟩ =
      runMessages pubDup root7B
        ([msgDup5].filter fun m' => !(identityOf pubDup m' == some (lowerStr addrA)))
        ⟨lowerStr addrA :: (MState.mk [] 0).seen,
          ((MState.mk [] 0).total + msgDup7.balance) % 18446744073709551616⟩ := by
  have e1 : recover_pubkey_with_digest pubDup.message_digest msgDup7.signature = some pkA := by
    decide
  have e2 : pubkey_to_address pkA = some addrA := by decide
  have e3 : lowerStr addrA ∉ (MState.mk [] 0).seen := by decide
  have e4 : compute_inclusion_root (hash_leaf addrA msgDup7.balance) msgDup7.inclusion_branches =
      some root7B := by decide
  exact ⟨e1, e2, e3, e4,
    c2_first_contributor pubDup root7B ⟨[], 0⟩ msgDup7 [msgDup5] pkA addrA e1 e2 e3 e4⟩

/-! ## Claim C9: a failed inclusion check leaves the state untouched -/

/-- C9: a claim whose recovery succeeds but whose computed root differs
from the expected root modifies neither the seen set nor the total — in
particular its identity is not marked as seen — and the rest of the run
proceeds from the unchanged state exactly as if the claim were absent,
so a later claim recovering to the same identity is still fully
processed and contributes if its own proof verifies. -/
theorem c9_failed_inclusion_frame (pub : PublicInputs) (root : List Nat) (st : MState)
    (m : SignedMessage) (rest : List SignedMessage) (pk addr : String) (c : List Nat)
    (h1 : recover_pubkey_with_digest pub.message_digest m.signature = some pk)
    (h2 : pubkey_to_address pk = some addr)
    (h3 : lowerStr addr ∉ st.seen)
    (h4 : compute_inclusion_root (hash_leaf addr m.balance) m.inclusion_branches = some c)
    (h5 : c ≠ root) :
    step pub root st m = some st ∧
    runMessages pub root (m :: rest) st = runMessages pub root rest st := by
  have hstep := step_frame pub root st m pk addr c h1 h2 h3 h4 h5
  exact ⟨hstep, by rw [runMessages_cons, hstep]⟩

/-- C9 witness: the balance-5 claim fails inclusion against the
balance-7 root and leaves the initial state unchanged. -/
theorem c9_failed_inclusion_frame_witness :
    recover_pubkey_with_digest pubDup.message_digest msgDup5.signature = some pkA ∧
    pubkey_to_address pkA = some addrA ∧
    lowerStr addrA ∉ (MState.mk [] 0).seen ∧
    compute_inclusion_root (hash_leaf addrA msgDup5.balance) msgDup5.inclusion_branches =
      some (hash_leaf addrA 5) ∧
    hash_leaf addrA 5 ≠ root7B ∧
    (step pubDup root7B ⟨[], 0⟩ msgDup5 = some ⟨[], 0⟩ ∧
      runMessages pubDup root7B (msgDup5 :: [msgDup7]) ⟨[], 0⟩ =
        runMessages pubDup root7B [msgDup7] ⟨[], 0⟩) := by
  have e1 : recover_pubkey_with_digest pubDup.message_digest msgDup5.signature = some pkA := by
    decide
  have e2 : pubkey_to_address pkA = some addrA := by decide
  have e3 : lowerStr addrA ∉ (MState.mk [] 0).seen := by decide
  have e4 : compute_inclusion_root (hash_leaf addrA msgDup5.balance) msgDup5.inclusion_branches =
      some (hash_leaf addrA 5) := rfl
  have e5 : hash_leaf addrA 5 ≠ root7B := by decide
  exact ⟨e1, e2, e3, e4, e5,
    c9_failed_inclusion_frame pubDup root7B ⟨[], 0⟩ msgDup5 [msgDup7] pkA addrA
      (hash_leaf addrA 5) e1 e2 e3 e4 e5⟩

/-! ## Projection of the instrumented run onto the real run -/

/-- Unfolding equation for the instrumented run on a nonempty list. -/
lemma runMessagesC_cons (pub : PublicInputs) (root : List Nat) (m : SignedMessage)
    (rest : List SignedMessage) (st : MStateC) :
    runMessagesC pub root (m :: rest) st =
      match stepC pub root st m with
      | none => none
      | some st' => runMessagesC pub root rest st' := rfl

/-- One instrumented step projects onto one real step. -/
lemma step_project (pub : PublicInputs) (root : List Nat) (st : MStateC) (m : SignedMessage) :
    step pub root ⟨st.seen, st.total⟩ m =
      Option.map (fun s => MState.mk s.seen s.total) (stepC pub root st m) := by
  unfold step stepC
  cases hr : recover_pubkey_with_digest pub.message_digest m.signature with
  | none => rfl
  | some pk =>
    dsimp only
    cases ha : pubkey_to_address pk with
    | none => rfl
    | some addr =>
      dsimp only
      by_cases hmem : lowerStr addr ∈ st.seen
      · rw [if_pos hmem, if_pos hmem]
        rfl
      · rw [if_neg hmem, if_neg hmem]
        cases hc : compute_inclusion_root (hash_leaf addr m.balance) m.inclusion_branches with
        | none => rfl
        | some computed =>
          dsimp only
          by_cases heq : computed = root
          · rw [if_pos heq, if_pos heq]
            rfl
          · rw [if_neg heq, if_neg heq]
            rfl

/-- The instrumented run projects onto the real run. -/
lemma run_project (pub : PublicInputs) (root : List Nat) :
    ∀ (msgs : List SignedMessage) (st : MStateC),
      runMessages pub root msgs ⟨st.seen, st.total⟩ =
        Option.map (fun s => MState.mk s.seen s.total) (runMessagesC pub root msgs st) := by
  intro msgs
  induction msgs with
  | nil => intro st; rfl
  | cons m rest ih =>
    intro st
    rw [runMessages_cons, runMessagesC_cons, step_project pub root st m]
    cases hs : stepC pub root st m with
    | none => rfl
    | some st₁ => exact ih st₁

/-- The committed total of `mainRun` is the total of the instrumented run. -/
lemma mainRun_of_runC (pub : PublicInputs) (root : List Nat) (claims : List SignedMessage)
    (s : MStateC) (h1 : hex_to_bytes32 pub.merkle_root = some root)
    (h2 : runMessagesC pub root claims cinit = some s) :
    mainRun pub ⟨claims⟩ = some s.total := by
  unfold mainRun
  rw [h1]
  dsimp only
  have hp : runMessages pub root claims ⟨[], 0⟩ =
      Option.map (fun s => MState.mk s.seen s.total) (runMessagesC pub root claims cinit) :=
    run_project pub root claims cinit
  rw [h2] at hp
  rw [hp]
  rfl

/-! ## The seen-set / contribution invariant -/

/-- One instrumented step preserves the invariant. -/
lemma stepC_inv (pub : PublicInputs) (root : List Nat) (st st' : MStateC) (m : SignedMessage)
    (h : stepC pub root st m = some st') (hi : CInv st) : CInv st' := by
  unfold stepC at h
  cases hr : recover_pubkey_with_digest pub.message_digest m.signature with
  | none => rw [hr] at h; cases h
  | some pk =>
    rw [hr] at h
    dsimp only at h
    cases ha : pubkey_to_address pk with
    | none => rw [ha] at h; cases h
    | some addr =>
      rw [ha] at h
      dsimp only at h
      by_cases hmem : lowerStr addr ∈ st.seen
      · rw [if_pos hmem] at h
        cases h
        exact hi
      · rw [if_neg hmem] at h
        cases hc : compute_inclusion_root (hash_leaf addr m.balance) m.inclusion_branches with
        | none => rw [hc] at h; cases h
        | some computed =>
          rw [hc] at h
          dsimp only at h
          by_cases heq : computed = root
          · rw [if_pos heq] at h
            cases h
            refine ⟨?_, ?_, ?_⟩
            · simp [List.map_cons, hi.1]
            · exact List.Nodup.cons hmem hi.2.1
            · simp only [List.map_cons, List.sum_cons]
              rw [hi.2.2, Nat.mod_add_mod, Nat.add_comm]
          · rw [if_neg heq] at h
            cases h
            exact hi

/-- The instrumented run preserves the invariant. -/
lemma runC_inv (pub : PublicInputs) (root : List Nat) :
    ∀ (msgs : List SignedMessage) (st st' : MStateC), CInv st →
      runMessagesC pub root msgs st = some st' → CInv st' := by
  intro msgs
  induction msgs with
  | nil =>
    intro st st' hi h
    cases h
    exact hi
  | cons m rest ih =>
    intro st st' hi h
    rw [runMessagesC_cons] at h
    cases hs : stepC pub root st m with
    | none => rw [hs] at h; cases h
    | some st₁ =>
      rw [hs] at h
      exact ih st₁ st' (stepC_inv pub root st st₁ m hs hi) h

/-! ## Concrete run evaluations -/

/-- Parsing the duplicate-scenario root hex. -/
lemma root7_parse : hex_to_bytes32 pubDup.merkle_root = some root7B := by decide

/-- Parsing the overflow-scenario root hex. -/
lemma rootOvf_parse : hex_to_bytes32 pubOvf.merkle_root = some rootOvfB := by decide

/-- Evaluation of the duplicate-identity run: the balance-5 claim fails
inclusion and contributes nothing; the balance-7 duplicate then passes
and contributes 7. -/
lemma dup_eval : runMessagesC pubDup root7B [msgDup5, msgDup7] cinit =
    some ⟨[addrA], 7, [(addrA, 7)]⟩ := by decide

/-- Evaluation of the overflow run: both claims verify, their balances
sum to `2 ^ 64`, and the wrapped accumulator ends at 0. -/
lemma ovf_eval : runMessagesC pubOvf rootOvfB [msgOvfA, msgOvfB] cinit =
    some ⟨[addrB, addrA], 0, [(addrB, bal63), (addrA, bal63)]⟩ := by decide

/-! ## Claim C3: seen-set membership vs. contribution -/

/-- C3 (amended): after processing any claim list (hence at every point
of a run, taking the prefix processed so far), the seen set is exactly
the list of identities whose balances were added (no duplicates, so its
size is the number of distinct contributing claims), and the committed
AggregateTotal is the sum of the first verified balance of each identity
in the seen set *reduced modulo `2 ^ 64`* — the unreduced-sum version of
the claim is refuted by `c3_counterexample`. -/
theorem c3_seen_invariant (pub : PublicInputs) (root : List Nat) (claims : List SignedMessage)
    (s : MStateC) (h1 : hex_to_bytes32 pub.merkle_root = some root)
    (h2 : runMessagesC pub root claims cinit = some s) :
    mainRun pub ⟨claims⟩ = some s.total ∧
    s.seen = s.contribs.map Prod.fst ∧
    s.seen.Nodup ∧
    s.total = (s.contribs.map Prod.snd).sum % 18446744073709551616 := by
  have hinv : CInv s :=
    runC_inv pub root claims cinit s ⟨rfl, List.nodup_nil, rfl⟩ h2
  exact ⟨mainRun_of_runC pub root claims s h1 h2, hinv.1, hinv.2.1, hinv.2.2⟩

/-- C3 witness: the empty claim list. -/
theorem c3_seen_invariant_witness :
    hex_to_bytes32 pubDup.merkle_root = some root7B ∧
    runMessagesC pubDup root7B [] cinit = some cinit ∧
    (mainRun pubDup ⟨[]⟩ = some cinit.total ∧
      cinit.seen = cinit.contribs.map Prod.fst ∧
      cinit.seen.Nodup ∧
      cinit.total = (cinit.contribs.map Prod.snd).sum % 18446744073709551616) :=
  ⟨root7_parse, rfl, c3_seen_invariant pubDup root7B [] cinit root7_parse rfl⟩

/-- C3 counterexample: in the overflow run both identities are in the
seen set with first verified balances summing to `2 ^ 64`, yet the
committed AggregateTotal is 0, not that sum — membership in the seen set
does not imply the balance is (un-wrapped) present in the total. -/
theorem c3_counterexample :
    runMessagesC pubOvf rootOvfB [msgOvfA, msgOvfB] cinit =
      some ⟨[addrB, addrA], 0, [(addrB, bal63), (addrA, bal63)]⟩ ∧
    mainRun pubOvf ⟨[msgOvfA, msgOvfB]⟩ = some 0 ∧
    (0 : Nat) ≠ bal63 + bal63 := by
  refine ⟨ovf_eval, ?_, by decide⟩
  exact mainRun_of_runC pubOvf rootOvfB [msgOvfA, msgOvfB] _ rootOvf_parse ovf_eval

/-! ## Claim C5: the accumulator wraps instead of failing -/

/-- C5 (amended): every verified balance is added to the 64-bit
accumulator with plain wrapping addition — the committed total is the
sum of the contributed balances reduced modulo `2 ^ 64`, and a sequence
of contributions totalling at most `2 ^ 64 - 1` yields the exact sum.
No overflow failure is ever signalled; the checked-addition version of
the claim is refuted by `c5_counterexample`. -/
theorem c5_wrapping_add (pub : PublicInputs) (root : List Nat) (claims : List SignedMessage)
    (s : MStateC) (h : runMessagesC pub root claims cinit = some s) :
    s.total = (s.contribs.map Prod.snd).sum % 18446744073709551616 ∧
    ((s.contribs.map Prod.snd).sum < 18446744073709551616 →
      s.total = (s.contribs.map Prod.snd).sum) := by
  have hinv : CInv s :=
    runC_inv pub root claims cinit s ⟨rfl, List.nodup_nil, rfl⟩ h
  exact ⟨hinv.2.2, fun hlt => by rw [hinv.2.2, Nat.mod_eq_of_lt hlt]⟩

/-- C5 witness: the empty claim list. -/
theorem c5_wrapping_add_witness :
    runMessagesC pubDup root7B [] cinit = some cinit ∧
    (cinit.total = (cinit.contribs.map Prod.snd).sum % 18446744073709551616 ∧
      ((cinit.contribs.map Prod.snd).sum < 18446744073709551616 →
        cinit.total = (cinit.contribs.map Prod.snd).sum)) :=
  ⟨rfl, c5_wrapping_add pubDup root7B [] cinit rfl⟩

/-- C5 counterexample: two verified contributions of `2 ^ 63` each sum
past `2 ^ 64 - 1`, yet the run commits `some 0` — the wrapped value —
instead of signalling an overflow failure. -/
theorem c5_counterexample :
    mainRun pubOvf ⟨[msgOvfA, msgOvfB]⟩ = some 0 ∧
    runMessagesC pubOvf rootOvfB [msgOvfA, msgOvfB] cinit =
      some ⟨[addrB, addrA], 0, [(addrB, bal63), (addrA, bal63)]⟩ ∧
    18446744073709551615 < bal63 + bal63 := by
  refine ⟨?_, ovf_eval, by decide⟩
  exact mainRun_of_runC pubOvf rootOvfB [msgOvfA, msgOvfB] _ rootOvf_parse ovf_eval

/-- C2 counterexample: two claims with the same signature (hence the
same derived identity) and different balances, where the first fails its
inclusion check: the identity is *not* marked seen, the second claim is
fully processed, and the run's only contribution is the second claim's
balance 7 — not the first claim's balance 5 — so "only the first of the
two contributes, with exactly the first claim's balance" fails. -/
theorem c2_counterexample :
    identityOf pubDup msgDup5 = identityOf pubDup msgDup7 ∧
    msgDup5.balance ≠ msgDup7.balance ∧
    runMessagesC pubDup root7B [msgDup5, msgDup7] cinit = some ⟨[addrA], 7, [(addrA, 7)]⟩ ∧
    mainRun pubDup ⟨[msgDup5, msgDup7]⟩ = some 7 ∧
    (7 : Nat) ≠ msgDup5.balance := by
  refine ⟨rfl, by decide, dup_eval, ?_, by decide⟩
  exact mainRun_of_runC pubDup root7B [msgDup5, msgDup7] _ root7_parse dup_eval

/-! ## Claim C8: determinism -/

/-- One loop iteration respects the hash-set representation freedom:
states with permuted seen sets and equal totals step to related states. -/
lemma step_mrel (pub : PublicInputs) (root : List Nat) (s₁ s₂ : MState) (m : SignedMessage)
    (hp : s₁.seen.Perm s₂.seen) (ht : s₁.total = s₂.total) :
    MRel (step pub root s₁ m) (step pub root s₂ m) := by
  unfold step
  cases hr : recover_pubkey_with_digest pub.message_digest m.signature with
  | none => exact trivial
  | some pk =>
    dsimp only
    cases ha : pubkey_to_address pk with
    | none => exact trivial
    | some addr =>
      dsimp only
      by_cases hmem : lowerStr addr ∈ s₁.seen
      · rw [if_pos hmem, if_pos (hp.mem_iff.mp hmem)]
        exact ⟨hp, ht⟩
      · rw [if_neg hmem, if_neg (fun hx => hmem (hp.mem_iff.mpr hx))]
        cases hc : compute_inclusion_root (hash_leaf addr m.balance) m.inclusion_branches with
        | none => exact trivial
        | some computed =>
          dsimp only
          by_cases heq : computed = root
          · rw [if_pos heq, if_pos heq]
            exact ⟨hp.cons _, by rw [ht]⟩
          · rw [if_neg heq, if_neg heq]
            exact ⟨hp, ht⟩

/-- The whole loop respects the hash-set representation freedom. -/
lemma run_mrel (pub : PublicInputs) (root : List Nat) :
    ∀ (claims : List SignedMessage) (s₁ s₂ : MState),
      s₁.seen.Perm s₂.seen → s₁.total = s₂.total →
      MRel (runMessages pub root claims s₁) (runMessages pub root claims s₂) := by
  intro claims
  induction claims with
  | nil => intro s₁ s₂ hp ht; exact ⟨hp, ht⟩
  | cons m rest ih =>
    intro s₁ s₂ hp ht
    have h := step_mrel pub root s₁ s₂ m hp ht
    rw [runMessages_cons, runMessages_cons]
    cases h1 : step pub root s₁ m with
    | none =>
      cases h2 : step pub root s₂ m with
      | none => exact trivial
      | some t => rw [h1, h2] at h; exact h.elim
    | some t₁ =>
      cases h2 : step pub root s₂ m with
      | none => rw [h1, h2] at h; exact h.elim
      | some t₂ =>
        rw [h1, h2] at h
        exact ih t₁ t₂ h.1 h.2

/-- C8: the core is deterministic — for a fixed context and claim list
the committed total is a function of the inputs alone.  The only
apparent source of nondeterminism in the source is the iteration-order
freedom of the `HashSet` of seen addresses, so the theorem states that
two executions whose internal seen-set representations are any
permutations of one another with equal accumulators commit exactly the
same AggregateTotal; two runs from the initial state (`s₁ = s₂ = ⟨[], 0⟩`)
are the special case. -/
theorem c8_determinism (pub : PublicInputs) (root : List Nat) (claims : List SignedMessage)
    (s₁ s₂ : MState) (hp : s₁.seen.Perm s₂.seen) (ht : s₁.total = s₂.total) :
    Option.map MState.total (runMessages pub root claims s₁) =
      Option.map MState.total (runMessages pub root claims s₂) := by
  have h := run_mrel pub root claims s₁ s₂ hp ht
  cases h1 : runMessages pub root claims s₁ with
  | none =>
    cases h2 : runMessages pub root claims s₂ with
    | none => rfl
    | some t => rw [h1, h2] at h; exact h.elim
  | some t₁ =>
    cases h2 : runMessages pub root claims s₂ with
    | none => rw [h1, h2] at h; exact h.elim
    | some t₂ =>
      rw [h1, h2] at h
      simp [h.2]

/-- C8 witness: two permuted seen-set representations. -/
theorem c8_determinism_witness :
    (MState.mk ["a", "b"] 0).seen.Perm (MState.mk ["b", "a"] 0).seen ∧
    (MState.mk ["a", "b"] 0).total = (MState.mk ["b", "a"] 0).total ∧
    Option.map MState.total (runMessages pubDup root7B [] ⟨["a", "b"], 0⟩) =
      Option.map MState.total (runMessages pubDup root7B [] ⟨["b", "a"], 0⟩) := by
  have hp : (MState.mk ["a", "b"] 0).seen.Perm (MState.mk ["b", "a"] 0).seen :=
    List.Perm.swap "b" "a" []
  exact ⟨hp, rfl, c8_determinism pubDup root7B [] ⟨["a", "b"], 0⟩ ⟨["b", "a"], 0⟩ hp rfl⟩

/-! ## Claim C7: identity derivation and leaf commitment -/

/-- A hex digit is already lowercase. -/
lemma lowerChar_hexDigit (n : Nat) : lowerChar (hexDigit n) = hexDigit n := by
  unfold hexDigit
  rcases Nat.lt_or_ge n 16 with h | h
  · interval_cases n <;> decide
  · rw [List.getD_eq_default]
    · decide
    · have hl : hexChars.length = 16 := by decide
      rw [hl]
      exact h

/-- Hex-encoded byte lists are already lowercase. -/
lemma map_lowerChar_hexEncodeL (l : List Nat) : (hexEncodeL l).map lowerChar = hexEncodeL l := by
  induction l with
  | nil => rfl
  | cons b t ih =>
    show (hexDigit (b / 16) :: hexDigit (b % 16) :: hexEncodeL t).map lowerChar = _
    simp only [List.map_cons, lowerChar_hexDigit, ih]
    rfl

/-- Hex strings with a `0x` prefix are fixed by lowercasing. -/
lemma lowerStr_hex (l : List Nat) : lowerStr ("0x" ++ hexEncode l) = "0x" ++ hexEncode l := by
  unfold lowerStr hexEncode
  show String.mk (('0' :: 'x' :: hexEncodeL l).map lowerChar) = _
  rw [List.map_cons, List.map_cons, map_lowerChar_hexEncodeL,
    show lowerChar '0' = '0' from by decide, show lowerChar 'x' = 'x' from by decide]
  rfl

/-- C7: for a recovered public key (whose SEC1 encoding starts with the
byte `0x04`), the derived identity is the low-order 20 bytes of the
keccak-256 hash of the key with that 1-byte prefix dropped, rendered as
`0x`-prefixed lowercase hex; and the leaf commitment used in the Merkle
check is the keccak-256 digest of exactly
`lowercase-hex(identity) ++ ":" ++ decimal(balance)` (lowercasing the
already-lowercase identity is the identity map). -/
theorem c7_leaf_commitment (pk : String) (pb : List Nat) (bal : Nat)
    (h : hexDecodeL pk.data = some (4 :: pb)) :
    pubkey_to_address pk =
      some ("0x" ++ hexEncode ((keccak256 pb).drop ((keccak256 pb).length - 20))) ∧
    hash_leaf ("0x" ++ hexEncode ((keccak256 pb).drop ((keccak256 pb).length - 20))) bal =
      keccak256 (strBytes (("0x" ++ hexEncode ((keccak256 pb).drop ((keccak256 pb).length - 20)))
        ++ ":" ++ decStr bal)) := by
  constructor
  · unfold pubkey_to_address
    rw [h]
  · unfold hash_leaf
    rw [lowerStr_hex]

/-- C7 witness: the concrete recovered key `pkA`. -/
theorem c7_leaf_commitment_witness :
    hexDecodeL pkA.data = some (4 :: pkABytes) ∧
    (pubkey_to_address pkA =
      some ("0x" ++ hexEncode ((keccak256 pkABytes).drop ((keccak256 pkABytes).length - 20))) ∧
    hash_leaf ("0x" ++ hexEncode ((keccak256 pkABytes).drop ((keccak256 pkABytes).length - 20))) 7 =
      keccak256 (strBytes (("0x" ++
          hexEncode ((keccak256 pkABytes).drop ((keccak256 pkABytes).length - 20)))
        ++ ":" ++ decStr 7))) := by
  have e : hexDecodeL pkA.data = some (4 :: pkABytes) := by decide
  exact ⟨e, c7_leaf_commitment pkA pkABytes 7 e⟩
